import Mathlib

/-!
Verification development for the resiprocate SIP stack sources.

The definitions below are shallow embeddings of the C++ sources:

* `SipStackState` and its operations embed `sip/resiprocate/SipStack.cxx`
  (tag T_VOCAL_1_5_BRANCHPOINT): the domain-alias set `mDomains`, the
  state-machine fifo `mStateMacFifo` and the TU fifo `mTUFifo`, together
  with `addTransport`, `addAlias`, `isMyDomain`, `send`, `sendTo` and
  `receive`.
* `SecurityOp`/`failureSignal` embed the failure-signalling contract of the
  `BaseSecurity` interface declared in `sip/resiprocate/Security.hxx`.
* The Conversation Manager model embeds the recon data model declared in
  `resip/recon/ConversationManager.hxx`; the member functions themselves are
  implemented outside the available sources and are modelled from the spec
  (each such definition says so in its doc comment).

Fifos are lists with the head as the oldest element; `std::set`/`std::map`
members are lists, respectively association lists, with the C++ lookup
semantics spelled out.
-/

/-- Transport protocol enumeration (`Transport::Type`, restricted to the
protocols named by the configuration surface: UDP, TCP, TLS). -/
inductive TransportType
  | UDP
  | TCP
  | TLS
deriving DecidableEq, Repr

/-- Model of `resip SipMessage` restricted to the state that
`SipStack.cxx` manipulates: an opaque payload, the from-TU mark set by
`setFromTU`, and the target URI set by `setTarget`. -/
structure SipMessage where
  content : String
  isFromTU : Bool
  target : Option String
deriving DecidableEq, Repr

/-- Embeds `SipMessage::setFromTU` as used in `SipStack::send`: marks the
message as coming from the transaction user. -/
def SipMessage.setFromTU (m : SipMessage) : SipMessage :=
  { m with isFromTU := true }

/-- Embeds `SipMessage::setTarget` as used in `SipStack::sendTo`. -/
def SipMessage.setTarget (m : SipMessage) (uri : String) : SipMessage :=
  { m with target := some uri }

/-- State of a `SipStack` object as manipulated by `SipStack.cxx`:
`mDomains` (a `std::set<Data>` of domain aliases), `mStateMacFifo`
(outbound fifo towards the transaction state machines), `mTUFifo`
(inbound fifo towards the transaction user), and the list of transports
registered through `mTransportSelector.addTransport`. -/
structure SipStackState where
  mDomains : List String
  mStateMacFifo : List SipMessage
  mTUFifo : List SipMessage
  transports : List (TransportType × Int × String × String)
deriving DecidableEq, Repr

/-- State of a freshly constructed `SipStack`: the constructor initializes
the random generator and the network and registers no transport and no
domain alias (the two `addTransport` calls in the constructor are commented
out). -/
def initialSipStack : SipStackState :=
  { mDomains := [], mStateMacFifo := [], mTUFifo := [], transports := [] }

/-- Embeds `SipStack::addAlias`: `mDomains.insert(domain)`, with
`std::set` insert semantics (no duplicate is added). -/
def SipStack.addAlias (s : SipStackState) (domain : String) : SipStackState :=
  { s with mDomains := if domain ∈ s.mDomains then s.mDomains else domain :: s.mDomains }

/-- Embeds `SipStack::addTransport`: forwards to
`mTransportSelector.addTransport` and then, when `hostName` is non-empty,
calls `addAlias(hostName)`. -/
def SipStack.addTransport (s : SipStackState) (protocol : TransportType) (port : Int)
    (hostName : String) (nic : String) : SipStackState :=
  let s1 := { s with transports := s.transports ++ [(protocol, port, hostName, nic)] }
  if hostName = "" then s1 else SipStack.addAlias s1 hostName

/-- Embeds `SipStack::isMyDomain`: `return (mDomains.count(domain) != 0)`. -/
def SipStack.isMyDomain (s : SipStackState) (domain : String) : Bool :=
  s.mDomains.count domain != 0

/-- Embeds `SipStack::send`: allocates a fresh copy of `msg`
(`new SipMessage(msg)`), marks the copy with `setFromTU`, and appends it to
`mStateMacFifo`. The second component of the result is the caller-owned
message object after the call returns; the code never writes through the
`const` reference, so it is the message the caller passed in. -/
def SipStack.send (s : SipStackState) (msg : SipMessage) : SipStackState × SipMessage :=
  let toSend := SipMessage.setFromTU msg
  ({ s with mStateMacFifo := s.mStateMacFifo ++ [toSend] }, msg)

/-- Embeds `SipStack::sendTo`: copies `msg`, sets the target and the
from-TU mark on the copy, and appends it to `mStateMacFifo`. -/
def SipStack.sendTo (s : SipStackState) (msg : SipMessage) (uri : String) : SipStackState :=
  let toSend := SipMessage.setFromTU (SipMessage.setTarget msg uri)
  { s with mStateMacFifo := s.mStateMacFifo ++ [toSend] }

/-- Embeds `SipStack::receive`: when `mTUFifo.messageAvailable()` it pops
and returns the oldest queued message, otherwise it returns the null
pointer (`none`) and leaves the state alone. -/
def SipStack.receive (s : SipStackState) : Option SipMessage × SipStackState :=
  match s.mTUFifo with
  | [] => (none, s)
  | m :: rest => (some m, { s with mTUFifo := rest })

/-- Public mutating entry points of `SipStack` present in `SipStack.cxx`,
used to quantify over call traces. -/
inductive StackOp
  | addAlias (domain : String)
  | addTransport (protocol : TransportType) (port : Int) (hostName : String) (nic : String)
  | send (msg : SipMessage)
  | sendTo (msg : SipMessage) (uri : String)
  | receive
deriving DecidableEq, Repr

/-- Applies one `SipStack` entry point to the stack state. -/
def applyStackOp (s : SipStackState) : StackOp → SipStackState
  | .addAlias d => SipStack.addAlias s d
  | .addTransport pr po h n => SipStack.addTransport s pr po h n
  | .send m => (SipStack.send s m).1
  | .sendTo m u => SipStack.sendTo s m u
  | .receive => (SipStack.receive s).2

/-- Runs a trace of `SipStack` entry points, oldest call first. -/
def runStackOps (s : SipStackState) : List StackOp → SipStackState
  | [] => s
  | op :: rest => runStackOps (applyStackOp s op) rest

/-- Holds when the given call adds `d` to the domain-alias set: a direct
`addAlias(d)`, or an `addTransport` whose `hostName` is `d` with `d`
non-empty. -/
def opAddsDomain (d : String) : StackOp → Prop
  | .addAlias dom => dom = d
  | .addTransport _ _ hostName _ => hostName = d ∧ d ≠ ""
  | _ => False

theorem mem_addAlias_mDomains (s : SipStackState) (dom d : String) :
    d ∈ (SipStack.addAlias s dom).mDomains ↔ (d = dom ∨ d ∈ s.mDomains) := by
  unfold SipStack.addAlias
  by_cases h : dom ∈ s.mDomains
  · simp only [if_pos h]
    constructor
    · exact Or.inr
    · rintro (rfl | hd)
      · exact h
      · exact hd
  · simp [if_neg h]

theorem mem_applyStackOp_mDomains (s : SipStackState) (op : StackOp) (d : String) :
    d ∈ (applyStackOp s op).mDomains ↔ (opAddsDomain d op ∨ d ∈ s.mDomains) := by
  cases op with
  | addAlias dom =>
    simpa [applyStackOp, opAddsDomain, eq_comm] using mem_addAlias_mDomains s dom d
  | addTransport pr po h n =>
    simp only [applyStackOp, SipStack.addTransport, opAddsDomain]
    by_cases hh : h = ""
    · subst hh
      simp only [if_pos rfl]
      constructor
      · exact Or.inr
      · rintro (⟨rfl, hne⟩ | hd)
        · exact absurd rfl hne
        · exact hd
    · simp only [if_neg hh]
      rw [mem_addAlias_mDomains]
      constructor
      · rintro (rfl | hd)
        · exact Or.inl ⟨rfl, hh⟩
        · exact Or.inr hd
      · rintro (⟨rfl, _⟩ | hd)
        · exact Or.inl rfl
        · exact Or.inr hd
  | send m => simp [applyStackOp, SipStack.send, opAddsDomain]
  | sendTo m u => simp [applyStackOp, SipStack.sendTo, opAddsDomain]
  | receive =>
    simp only [applyStackOp, opAddsDomain, false_or]
    cases hf : s.mTUFifo <;> simp [SipStack.receive, hf]

theorem mem_runStackOps_mDomains (ops : List StackOp) (s : SipStackState) (d : String) :
    d ∈ (runStackOps s ops).mDomains ↔ ((∃ op ∈ ops, opAddsDomain d op) ∨ d ∈ s.mDomains) := by
  induction ops generalizing s with
  | nil => simp [runStackOps]
  | cons op rest ih =>
    simp only [runStackOps]
    rw [ih]
    rw [mem_applyStackOp_mDomains]
    constructor
    · rintro (⟨o, ho, hadd⟩ | (hop | hd))
      · exact Or.inl ⟨o, List.mem_cons_of_mem _ ho, hadd⟩
      · exact Or.inl ⟨op, List.mem_cons_self _ _, hop⟩
      · exact Or.inr hd
    · rintro (⟨o, ho, hadd⟩ | hd)
      · rcases List.mem_cons.mp ho with rfl | ho
        · exact Or.inr (Or.inl hadd)
        · exact Or.inl ⟨o, ho, hadd⟩
      · exact Or.inr (Or.inr hd)

theorem isMyDomain_true_iff (s : SipStackState) (d : String) :
    SipStack.isMyDomain s d = true ↔ d ∈ s.mDomains := by
  unfold SipStack.isMyDomain
  rw [bne_iff_ne]
  rw [ne_eq, List.count_eq_zero]
  simp

/-- C6: starting from a freshly constructed stack, after any trace of
`SipStack` entry points, `isMyDomain(d)` returns true exactly when some
call of the trace added `d` to the domain-alias set, that is a direct
`addAlias(d)` or an `addTransport` with `hostName = d` and `d` non-empty. -/
theorem isMyDomain_iff_added (ops : List StackOp) (d : String) :
    SipStack.isMyDomain (runStackOps initialSipStack ops) d = true ↔
      ∃ op ∈ ops, opAddsDomain d op := by
  rw [isMyDomain_true_iff, mem_runStackOps_mDomains]
  simp [initialSipStack]

/-- C9: `SipStack::send` leaves the caller message unchanged; it only
appends a fresh from-TU-marked copy of the message to the state-machine
fifo and touches nothing else in the stack state. -/
theorem sipStackSend_frame (s : SipStackState) (msg : SipMessage) :
    (SipStack.send s msg).2 = msg ∧
    (SipStack.send s msg).1.mStateMacFifo = s.mStateMacFifo ++ [SipMessage.setFromTU msg] ∧
    (SipStack.send s msg).1.mDomains = s.mDomains ∧
    (SipStack.send s msg).1.mTUFifo = s.mTUFifo ∧
    (SipStack.send s msg).1.transports = s.transports := by
  refine ⟨rfl, rfl, rfl, rfl, rfl⟩

/-- C10: `SipStack::receive` returns the null pointer and leaves the state
unchanged when the TU fifo is empty; otherwise it removes and returns the
oldest queued message and modifies no other stack state. The function is
total, so it never blocks waiting for a message. -/
theorem sipStackReceive_spec (s : SipStackState) :
    (s.mTUFifo = [] → SipStack.receive s = (none, s)) ∧
    (∀ m rest, s.mTUFifo = m :: rest →
      (SipStack.receive s).1 = some m ∧
      (SipStack.receive s).2.mTUFifo = rest ∧
      (SipStack.receive s).2.mDomains = s.mDomains ∧
      (SipStack.receive s).2.mStateMacFifo = s.mStateMacFifo ∧
      (SipStack.receive s).2.transports = s.transports) := by
  constructor
  · intro h
    simp [SipStack.receive, h]
  · intro m rest h
    simp [SipStack.receive, h]

/-- Concrete SIP message used by the `receive` witness. -/
def witnessMsg : SipMessage :=
  { content := "INVITE sip:bob@example.com SIP/2.0", isFromTU := false, target := none }

/-- Concrete stack state with one queued inbound message, used by the
`receive` witness. -/
def witnessRecvState : SipStackState :=
  { mDomains := ["example.com"], mStateMacFifo := [], mTUFifo := [witnessMsg], transports := [] }

/-- Witness for C10 at a concrete one-element TU fifo and at the empty TU
fifo of a fresh stack. -/
theorem sipStackReceive_spec_witness :
    (SipStack.receive witnessRecvState).1 = some witnessMsg ∧
    (SipStack.receive witnessRecvState).2.mTUFifo = [] ∧
    SipStack.receive initialSipStack = (none, initialSipStack) := by
  have h1 := (sipStackReceive_spec witnessRecvState).2 witnessMsg [] rfl
  have h2 := (sipStackReceive_spec initialSipStack).1 rfl
  exact ⟨h1.1, h1.2.1, h2⟩

/-- Model of the `BaseSecurity::Exception` class of `Security.hxx`: the
constructor is `Exception(const Data and msg, const Data and file, const int
line)`, so every raised `SecurityException` carries the message together
with the file and line of the failure. -/
structure SecurityException where
  msg : String
  file : String
  line : Int
deriving DecidableEq, Repr

/-- Failure-signalling convention of a `BaseSecurity` operation:
`throwsException` when a failure raises `SecurityException`, `nullReturn`
when the declaration documents failure by a NULL return value. -/
inductive FailureSignal
  | throwsException
  | nullReturn
deriving DecidableEq, Repr

/-- Public crypto operations of the `BaseSecurity` interface named by the
specification: sign, encrypt, decrypt, checkSignature, computeIdentity and
the certificate add/get/remove family. -/
inductive SecurityOp
  | sign
  | encrypt
  | signAndEncrypt
  | computeIdentity
  | addRootCertPEM
  | addDomainCertPEM
  | addDomainCertDER
  | getDomainCertDER
  | removeDomainCert
  | addUserCertPEM
  | addUserCertDER
  | getUserCertDER
  | removeUserCert
  | decrypt
  | checkSignature
deriving DecidableEq, Repr

/-- Failure-signalling convention of each operation as declared in
`Security.hxx`: the certificate family, `sign`, `encrypt` and
`computeIdentity` sit under the comment "All of these guys can throw
SecurityException", while `decrypt` is declared with "returns NULL if it
fails" and `checkSignature` with "returns NULL if fails. returns the data
that was originally signed", reporting its status through the
`SignatureStatus` out-parameter. -/
def failureSignal : SecurityOp → FailureSignal
  | .decrypt => .nullReturn
  | .checkSignature => .nullReturn
  | _ => .throwsException

/-- C3 counterexample: contrary to the claim, `decrypt` and
`checkSignature` do not signal cryptographic failure by raising
`SecurityException`; `Security.hxx` declares both to return NULL on
failure. -/
theorem securityDecryptNullReturn :
    failureSignal SecurityOp.decrypt ≠ FailureSignal.throwsException ∧
    failureSignal SecurityOp.checkSignature ≠ FailureSignal.throwsException := by
  exact ⟨by decide, by decide⟩

/-- C3 amended: every Security interface operation other than `decrypt` and
`checkSignature` signals failure by raising a `SecurityException`, and the
exception constructor carries the file and the line of the failure;
`decrypt` and `checkSignature` signal cryptographic failure in-band by
returning NULL. -/
theorem securityFailureSignal_spec :
    (∀ op : SecurityOp,
      failureSignal op = FailureSignal.throwsException ↔
        (op ≠ SecurityOp.decrypt ∧ op ≠ SecurityOp.checkSignature)) ∧
    (∀ (m f : String) (l : Int),
      (SecurityException.mk m f l).file = f ∧ (SecurityException.mk m f l).line = l) := by
  constructor
  · intro op
    cases op <;> simp [failureSignal]
  · intro m f l
    exact ⟨rfl, rfl⟩

/-- Conversation handle minted by `getNewConversationHandle` (an opaque
64-bit integer in the source; modelled as `Nat`). -/
abbrev ConversationHandle := Nat

/-- Participant handle minted by `getNewParticipantHandle` (an opaque
64-bit integer in the source; modelled as `Nat`). -/
abbrev ParticipantHandle := Nat

/-- Auto-hold policy enumeration `ConversationManager::AutoHoldMode` from
`ConversationManager.hxx`. -/
inductive AutoHoldMode
  | AutoHoldDisabled
  | AutoHoldEnabled
  | AutoHoldBroadcastOnly
deriving DecidableEq, Repr

/-- Fork-selection policy enumeration
`ConversationManager::ParticipantForkSelectMode` from
`ConversationManager.hxx`. -/
inductive ParticipantForkSelectMode
  | ForkSelectAutomatic
  | ForkSelectManual
  | ForkSelectAutomaticEx
deriving DecidableEq, Repr

/-- Participant variant from the spec data model: Local
(microphone/speaker), Remote (backed by an InviteSession and a DialogSet),
or MediaResource (plays or records a media URL). -/
inductive ParticipantKind
  | localPart
  | remotePart
  | mediaResourcePart
deriving DecidableEq, Repr

/-- Conversation record: an ordered set of participant handles plus the
conversation auto-hold mode, as in the spec data model and the
`Conversation` class referenced by `ConversationManager.hxx`. -/
structure Conversation where
  members : List ParticipantHandle
  autoHold : AutoHoldMode
deriving DecidableEq, Repr

/-- State owned by `ConversationManager`: the `ConversationMap`
(`std::map<ConversationHandle, Conversation*> mConversations`) and the
`ParticipantMap` (`std::map<ParticipantHandle, Participant*>
mParticipants`), both modelled as association lists. -/
structure CMState where
  mConversations : List (ConversationHandle × Conversation)
  mParticipants : List (ParticipantHandle × ParticipantKind)
deriving DecidableEq, Repr

/-- Lookup in an association list keyed by handles, returning the first
entry with the given key — the `std::map::find` of the source maps. -/
def assocFind {α : Type} : List (Nat × α) → Nat → Option α
  | [], _ => none
  | kv :: rest, h => if kv.1 = h then some kv.2 else assocFind rest h

/-- Observable SIP side effects the Conversation Manager emits: a BYE on a
remote participant dialog, a CANCEL of the original INVITE, or the
destruction of a (related) conversation. -/
inductive SipEvent
  | bye (p : ParticipantHandle)
  | cancel
  | convDestroyed (c : ConversationHandle)
deriving DecidableEq, Repr

/-- Holds (as a Bool) when participant `p` is a member of no conversation
in the given conversation map — its conversation-membership set is empty. -/
def isOrphanIn (convs : List (ConversationHandle × Conversation)) (p : ParticipantHandle) : Bool :=
  decide (∀ c ∈ convs, p ∉ c.2.members)

/-- Emits the BYE for a destroyed participant when it is remote (ending a
remote participant releases its call), nothing otherwise. -/
def byeIfRemote (s : CMState) (p : ParticipantHandle) : Option SipEvent :=
  match assocFind s.mParticipants p with
  | some ParticipantKind.remotePart => some (SipEvent.bye p)
  | _ => none

/-- Modelled from the spec: `destroyConversation(h)` — the implementation
file is not under the available sources, only its declaration in
`ConversationManager.hxx`. Per the spec it removes the conversation and
iterates the participant members; each member whose membership set becomes
empty is destroyed, and a destroyed remote participant sends BYE. -/
def destroyConversation (s : CMState) (h : ConversationHandle) : CMState × List SipEvent :=
  match assocFind s.mConversations h with
  | none => (s, [])
  | some conv =>
    let remaining := s.mConversations.filter (fun c => c.1 ≠ h)
    let orphans := conv.members.filter (fun p => isOrphanIn remaining p)
    ({ mConversations := remaining,
       mParticipants := s.mParticipants.filter (fun pp => pp.1 ∉ orphans) },
     orphans.filterMap (fun p => byeIfRemote s p))

/-- Modelled from the spec: `joinConversation(src, dst)` — the
implementation file is not under the available sources, only its
declaration in `ConversationManager.hxx`. Per the spec it atomically
transfers all members of the source conversation into the destination and
then destroys the source, without sending BYEs. -/
def joinConversation (s : CMState) (src dst : ConversationHandle) : CMState × List SipEvent :=
  match assocFind s.mConversations src, assocFind s.mConversations dst with
  | some csrc, some cdst =>
    let merged : Conversation :=
      { cdst with members := cdst.members ++ csrc.members.filter (fun p => p ∉ cdst.members) }
    let convs :=
      (s.mConversations.filter (fun c => c.1 ≠ src)).map
        (fun c => if c.1 = dst then (dst, merged) else c)
    ({ s with mConversations := convs }, [])
  | _, _ => (s, [])

/-- Modelled from the spec: `destroyParticipant(h)` — the implementation
file is not under the available sources, only its declaration in
`ConversationManager.hxx`. Per the spec it ends connections to the
participant (BYE for a remote one) and removes it from all active
conversations; a handle not in the `ParticipantMap` is ignored, which is
what makes a second destroy a no-op. -/
def destroyParticipant (s : CMState) (h : ParticipantHandle) : CMState × List SipEvent :=
  match assocFind s.mParticipants h with
  | none => (s, [])
  | some kind =>
    ({ mConversations := s.mConversations.map
         (fun c => (c.1, { c.2 with members := c.2.members.filter (fun p => p ≠ h) })),
       mParticipants := s.mParticipants.filter (fun pp => pp.1 ≠ h) },
     if kind = ParticipantKind.remotePart then [SipEvent.bye h] else [])

theorem assocFind_filter_key_ne {α : Type} (l : List (Nat × α)) (h : Nat) :
    assocFind (l.filter (fun c => c.1 ≠ h)) h = none := by
  induction l with
  | nil => rfl
  | cons c rest ih =>
    by_cases hc : c.1 = h
    · simp only [List.filter_cons, hc]
      simpa using ih
    · simp only [List.filter_cons]
      rw [if_pos (by simpa using hc)]
      simp only [assocFind, if_neg hc]
      exact ih

theorem assocFind_filter_key_other {α : Type} (l : List (Nat × α)) (src dst : Nat)
    (hne : dst ≠ src) :
    assocFind (l.filter (fun c => c.1 ≠ src)) dst = assocFind l dst := by
  induction l with
  | nil => rfl
  | cons c rest ih =>
    by_cases hc : c.1 = src
    · have hcd : c.1 ≠ dst := by rw [hc]; exact fun e => hne e.symm
      simp only [List.filter_cons, hc]
      simp only [assocFind, if_neg hcd]
      simpa using ih
    · simp only [List.filter_cons]
      rw [if_pos (by simpa using hc)]
      simp only [assocFind]
      by_cases hcd : c.1 = dst
      · simp [hcd]
      · simp only [if_neg hcd]
        exact ih

theorem assocFind_filter_none {α : Type} (l : List (Nat × α)) (f : Nat × α → Bool) (p : Nat)
    (hf : ∀ kv : Nat × α, kv.1 = p → f kv = false) :
    assocFind (l.filter f) p = none := by
  induction l with
  | nil => rfl
  | cons c rest ih =>
    by_cases hc : f c = true
    · have hcp : c.1 ≠ p := fun e => by rw [hf c e] at hc; cases hc
      simp only [List.filter_cons]
      rw [if_pos hc]
      simp only [assocFind, if_neg hcp]
      exact ih
    · simp only [List.filter_cons]
      rw [if_neg hc]
      exact ih

theorem assocFind_map_update {α : Type} (l : List (Nat × α)) (dst : Nat) (v w : α)
    (hl : assocFind l dst = some v) :
    assocFind (l.map (fun c => if c.1 = dst then (dst, w) else c)) dst = some w := by
  induction l with
  | nil => cases hl
  | cons c rest ih =>
    by_cases hc : c.1 = dst
    · simp [assocFind, hc]
    · simp only [List.map_cons, if_neg hc]
      simp only [assocFind, if_neg hc] at hl ⊢
      exact ih hl

theorem assocFind_map_update_ne {α : Type} (l : List (Nat × α)) (dst other : Nat) (w : α)
    (hne : other ≠ dst) :
    assocFind (l.map (fun c => if c.1 = dst then (dst, w) else c)) other = assocFind l other := by
  induction l with
  | nil => rfl
  | cons c rest ih =>
    by_cases hc : c.1 = dst
    · have h1 : dst ≠ other := fun e => hne e.symm
      have h2 : c.1 ≠ other := by rw [hc]; exact h1
      simp only [List.map_cons, if_pos hc]
      simp only [assocFind, if_neg h1, if_neg h2]
      exact ih
    · simp only [List.map_cons, if_neg hc]
      simp only [assocFind]
      by_cases hco : c.1 = other
      · simp [hco]
      · simp only [if_neg hco]
        exact ih

theorem byeIfRemote_inj (s : CMState) (q p : ParticipantHandle)
    (h : byeIfRemote s q = some (SipEvent.bye p)) : q = p := by
  unfold byeIfRemote at h
  revert h
  cases assocFind s.mParticipants q with
  | none => intro h; cases h
  | some k =>
    cases k with
    | remotePart => intro h; simpa using h
    | localPart => intro h; cases h
    | mediaResourcePart => intro h; cases h

theorem count_bye_filterMap_zero (s : CMState) (l : List ParticipantHandle)
    (p : ParticipantHandle) (hp : p ∉ l) :
    (l.filterMap (fun q => byeIfRemote s q)).count (SipEvent.bye p) = 0 := by
  rw [List.count_eq_zero]
  intro hmem
  rcases List.mem_filterMap.mp hmem with ⟨q, hq, he⟩
  have : q = p := byeIfRemote_inj s q p he
  exact hp (this ▸ hq)

theorem count_bye_filterMap_one (s : CMState) (l : List ParticipantHandle)
    (p : ParticipantHandle) (hnd : l.Nodup) (hp : p ∈ l)
    (hr : byeIfRemote s p = some (SipEvent.bye p)) :
    (l.filterMap (fun q => byeIfRemote s q)).count (SipEvent.bye p) = 1 := by
  induction l with
  | nil => cases hp
  | cons q rest ih =>
    have hq_not : q ∉ rest := (List.nodup_cons.mp hnd).1
    have hrest : rest.Nodup := (List.nodup_cons.mp hnd).2
    rcases List.mem_cons.mp hp with rfl | hpr
    · simp only [List.filterMap_cons, hr]
      rw [List.count_cons]
      rw [count_bye_filterMap_zero s rest p hq_not]
      simp
    · have hqp : q ≠ p := fun e => hq_not (e ▸ hpr)
      simp only [List.filterMap_cons]
      cases hb : byeIfRemote s q with
      | none => exact ih hrest hpr
      | some e =>
        have hne : e ≠ SipEvent.bye p := by
          intro he
          exact hqp (byeIfRemote_inj s q p (he ▸ hb))
        rw [List.count_cons]
        rw [if_neg (by simpa using hne)]
        simpa using ih hrest hpr

/-- C4: when `h` is a registered conversation, `destroyConversation(h)`
removes `h` (a later lookup returns NotFound), and every member
participant whose conversation-membership set becomes empty as a result is
destroyed; when such a participant is remote, exactly one BYE is emitted
for it. -/
theorem destroyConversation_spec (s : CMState) (h : ConversationHandle) (conv : Conversation)
    (p : ParticipantHandle)
    (hc : assocFind s.mConversations h = some conv)
    (hnd : conv.members.Nodup)
    (hp : p ∈ conv.members)
    (horph : isOrphanIn (s.mConversations.filter (fun c => c.1 ≠ h)) p = true) :
    assocFind (destroyConversation s h).1.mConversations h = none ∧
    assocFind (destroyConversation s h).1.mParticipants p = none ∧
    (assocFind s.mParticipants p = some ParticipantKind.remotePart →
      (destroyConversation s h).2.count (SipEvent.bye p) = 1) := by
  have hpo : p ∈ conv.members.filter
      (fun q => isOrphanIn (s.mConversations.filter (fun c => c.1 ≠ h)) q) :=
    List.mem_filter.mpr ⟨hp, horph⟩
  simp only [destroyConversation, hc]
  refine ⟨assocFind_filter_key_ne _ h, ?_, ?_⟩
  · exact assocFind_filter_none _ _ p (fun kv hkv => by rw [hkv]; exact decide_eq_false (not_not_intro hpo))
  · intro hrem
    have hbye : byeIfRemote s p = some (SipEvent.bye p) := by
      unfold byeIfRemote
      rw [hrem]
    exact count_bye_filterMap_one s _ p (hnd.filter _) hpo hbye

/-- Concrete conversation used by the C4 witness. -/
def c4Conv : Conversation := { members := [10], autoHold := AutoHoldMode.AutoHoldEnabled }

/-- Concrete manager state used by the C4 witness: one conversation whose
sole member is the remote participant 10. -/
def c4State : CMState :=
  { mConversations := [(1, c4Conv)], mParticipants := [(10, ParticipantKind.remotePart)] }

/-- Witness for C4 at a concrete state: destroying conversation 1 removes
it, destroys the now-memberless remote participant 10 and emits exactly
one BYE for it. -/
theorem destroyConversation_spec_witness :
    assocFind (destroyConversation c4State 1).1.mConversations 1 = none ∧
    assocFind (destroyConversation c4State 1).1.mParticipants 10 = none ∧
    (destroyConversation c4State 1).2.count (SipEvent.bye 10) = 1 := by
  have hcl := destroyConversation_spec c4State 1 c4Conv 10 (by decide) (by decide) (by decide)
    (by decide)
  exact ⟨hcl.1, hcl.2.1, hcl.2.2 (by decide)⟩

/-- C5: for distinct registered conversations `a` and `b`,
`joinConversation(a, b)` leaves `b` holding exactly the union of the prior
memberships of `a` and `b`, destroys `a` (a later lookup returns
NotFound), and emits no BYE. -/
theorem joinConversation_spec (s : CMState) (a b : ConversationHandle) (ca cb : Conversation)
    (hab : a ≠ b)
    (ha : assocFind s.mConversations a = some ca)
    (hb : assocFind s.mConversations b = some cb) :
    assocFind (joinConversation s a b).1.mConversations a = none ∧
    (∃ m : Conversation,
      assocFind (joinConversation s a b).1.mConversations b = some m ∧
      ∀ p, p ∈ m.members ↔ (p ∈ ca.members ∨ p ∈ cb.members)) ∧
    (joinConversation s a b).2 = [] := by
  simp only [joinConversation, ha, hb]
  refine ⟨?_, ⟨⟨cb.members ++ ca.members.filter (fun p => p ∉ cb.members), cb.autoHold⟩, ?_, ?_⟩, trivial⟩
  · rw [assocFind_map_update_ne _ b a _ hab]
    exact assocFind_filter_key_ne _ a
  · exact assocFind_map_update _ b cb _
      ((assocFind_filter_key_other s.mConversations a b (fun e => hab e.symm)).trans hb)
  · intro p
    simp only [List.mem_append, List.mem_filter, decide_eq_true_eq]
    constructor
    · rintro (hcb | ⟨hca, _⟩)
      · exact Or.inr hcb
      · exact Or.inl hca
    · rintro (hca | hcb)
      · by_cases hmem : p ∈ cb.members
        · exact Or.inl hmem
        · exact Or.inr ⟨hca, hmem⟩
      · exact Or.inl hcb

/-- Concrete conversations used by the C5 witness. -/
def c5State : CMState :=
  { mConversations :=
      [(1, { members := [10, 11], autoHold := AutoHoldMode.AutoHoldEnabled }),
       (2, { members := [11, 12], autoHold := AutoHoldMode.AutoHoldEnabled })],
    mParticipants :=
      [(10, ParticipantKind.remotePart), (11, ParticipantKind.localPart),
       (12, ParticipantKind.remotePart)] }

/-- Witness for C5 at a concrete state: joining conversation 1 into 2
destroys 1, leaves 2 holding the union of both memberships, and emits
nothing. -/
theorem joinConversation_spec_witness :
    assocFind (joinConversation c5State 1 2).1.mConversations 1 = none ∧
    (∃ m : Conversation,
      assocFind (joinConversation c5State 1 2).1.mConversations 2 = some m ∧
      ∀ p, p ∈ m.members ↔
        (p ∈ [10, 11] ∨ p ∈ [11, 12])) ∧
    (joinConversation c5State 1 2).2 = [] := by
  have hcl := joinConversation_spec c5State 1 2
    { members := [10, 11], autoHold := AutoHoldMode.AutoHoldEnabled }
    { members := [11, 12], autoHold := AutoHoldMode.AutoHoldEnabled }
    (by decide) (by decide) (by decide)
  exact hcl

theorem destroyParticipant_absent (s : CMState) (h : ParticipantHandle)
    (hf : assocFind s.mParticipants h = none) : destroyParticipant s h = (s, []) := by
  simp [destroyParticipant, hf]

theorem destroyParticipant_removed (s : CMState) (h : ParticipantHandle) :
    assocFind (destroyParticipant s h).1.mParticipants h = none := by
  cases hf : assocFind s.mParticipants h with
  | none => simp [destroyParticipant, hf]
  | some k =>
    simp only [destroyParticipant, hf]
    exact assocFind_filter_key_ne _ h

/-- C8: `destroyParticipant` is idempotent — after a call on `h`, a second
`destroyParticipant(h)` changes no state and emits no message. -/
theorem destroyParticipant_idempotent (s : CMState) (h : ParticipantHandle) :
    destroyParticipant (destroyParticipant s h).1 h = ((destroyParticipant s h).1, []) :=
  destroyParticipant_absent _ h (destroyParticipant_removed s h)

/-- Direction attribute of an SDP media stream (RFC 3264). -/
inductive SdpDirection
  | sendrecv
  | sendonly
  | recvonly
  | inactive
deriving DecidableEq, Repr

/-- Modelled from the spec: the SDP direction the Conversation Manager
offers toward a remote participant, given the conversation auto-hold mode,
the number of other participants in the conversation with it, and whether
the application held it manually with `holdParticipant`; the implementing
code is not under the available sources. `AutoHoldDisabled` never holds
automatically; `AutoHoldEnabled` holds the remote participant when it is
alone in its conversation; `AutoHoldBroadcastOnly` always sends sendonly. -/
def directionToRemote (mode : AutoHoldMode) (otherCount : Nat) (held : Bool) : SdpDirection :=
  match mode with
  | .AutoHoldDisabled => if held then .sendonly else .sendrecv
  | .AutoHoldEnabled => if held || otherCount == 0 then .sendonly else .sendrecv
  | .AutoHoldBroadcastOnly => .sendonly

/-- Modelled from the spec: direction placed in the SDP answer to an
inbound offer carrying the given direction; the implementing code is not
under the available sources. In `AutoHoldBroadcastOnly` every answer is
sendonly — in particular an inbound a=inactive offer is answered with
a=sendonly instead of the plain RFC 3264 reciprocal a=inactive; the other
modes answer with the RFC 3264 reciprocal direction. -/
def answerDirection (mode : AutoHoldMode) (offerDir : SdpDirection) : SdpDirection :=
  match mode with
  | .AutoHoldBroadcastOnly => .sendonly
  | _ =>
    match offerDir with
    | .sendrecv => .sendrecv
    | .sendonly => .recvonly
    | .recvonly => .sendonly
    | .inactive => .inactive

/-- C7: in a conversation in `AutoHoldBroadcastOnly` mode every remote
participant is always held with SDP direction sendonly, whatever its
membership situation, and an inbound offer carrying a=inactive is answered
with a=sendonly. -/
theorem autoHoldBroadcastOnly_spec :
    (∀ (otherCount : Nat) (held : Bool),
      directionToRemote AutoHoldMode.AutoHoldBroadcastOnly otherCount held =
        SdpDirection.sendonly) ∧
    answerDirection AutoHoldMode.AutoHoldBroadcastOnly SdpDirection.inactive =
      SdpDirection.sendonly := by
  exact ⟨fun _ _ => rfl, rfl⟩

/-- State of one outgoing forked INVITE as tracked by its
`RemoteParticipantDialogSet` and related conversation set: the configured
fork-select mode, the forks that have established an early dialog (each
materialized as a related participant and related conversation pair,
original fork included), and the fork accepted by the first 2xx, if any. -/
structure ForkCallState where
  mode : ParticipantForkSelectMode
  forks : List (ParticipantHandle × ConversationHandle)
  winner : Option ParticipantHandle
deriving DecidableEq, Repr

/-- Events driving an outgoing forked call: a provisional response that
establishes a new early fork dialog (materialized as a related
participant/conversation pair), the first 2xx arriving on a fork, and the
application destroying the original participant. -/
inductive ForkEvent
  | provisional (p : ParticipantHandle) (c : ConversationHandle)
  | firstAnswer (p : ParticipantHandle)
  | destroyOriginal
deriving DecidableEq, Repr

/-- State of a forked call before any response. -/
def initialForkCall (mode : ParticipantForkSelectMode) : ForkCallState :=
  { mode := mode, forks := [], winner := none }

/-- Modelled from the spec: the fork-selection policy — the implementing
code (`RemoteParticipantDialogSet`) is not under the available sources,
only the mode enumeration in `ConversationManager.hxx`. A provisional
materializes a new fork. On the first 2xx, `ForkSelectAutomatic` and
`ForkSelectAutomaticEx` accept that fork and send BYE on the other forks
that established an early dialog, destroying their related conversations;
no CANCEL is issued, and a late 2xx on a losing fork is absorbed by the
transaction layer (modelled as a no-op once a winner exists);
`ForkSelectManual` keeps all forks for the application. If the application
destroys the original participant before any answer in
`ForkSelectAutomaticEx` mode, a single CANCEL is issued and every related
conversation is torn down; in the other modes the application itself must
dispose of the legs, which is outside this model. -/
def forkStep (s : ForkCallState) : ForkEvent → ForkCallState × List SipEvent
  | .provisional p c => ({ s with forks := s.forks ++ [(p, c)] }, [])
  | .firstAnswer p =>
    match s.winner with
    | some _ => (s, [])
    | none =>
      match s.mode with
      | .ForkSelectManual => ({ s with winner := some p }, [])
      | _ =>
        let losers := s.forks.filter (fun q => q.1 ≠ p)
        ({ s with forks := s.forks.filter (fun q => q.1 = p), winner := some p },
         losers.map (fun q => SipEvent.bye q.1) ++
           losers.map (fun q => SipEvent.convDestroyed q.2))
  | .destroyOriginal =>
    match s.mode, s.winner with
    | .ForkSelectAutomaticEx, none =>
      ({ s with forks := [] },
       SipEvent.cancel :: s.forks.map (fun q => SipEvent.convDestroyed q.2))
    | _, _ => (s, [])

/-- Runs a sequence of fork events, accumulating the emitted SIP side
effects in order. -/
def runFork (s : ForkCallState) : List ForkEvent → ForkCallState × List SipEvent
  | [] => (s, [])
  | e :: rest =>
    let r := forkStep s e
    let r2 := runFork r.1 rest
    (r2.1, r.2 ++ r2.2)

theorem runFork_cons (s : ForkCallState) (e : ForkEvent) (rest : List ForkEvent) :
    runFork s (e :: rest) =
      ((runFork (forkStep s e).1 rest).1,
       (forkStep s e).2 ++ (runFork (forkStep s e).1 rest).2) := rfl

theorem runFork_append (s : ForkCallState) (l1 l2 : List ForkEvent) :
    runFork s (l1 ++ l2) =
      ((runFork (runFork s l1).1 l2).1,
       (runFork s l1).2 ++ (runFork (runFork s l1).1 l2).2) := by
  induction l1 generalizing s with
  | nil => simp [runFork]
  | cons e rest ih =>
    simp only [List.cons_append, runFork_cons, ih, List.append_assoc]

theorem runFork_provisionals (mode : ParticipantForkSelectMode) (winner0 : Option ParticipantHandle)
    (forks0 pcs : List (ParticipantHandle × ConversationHandle)) :
    runFork { mode := mode, forks := forks0, winner := winner0 }
      (pcs.map (fun q => ForkEvent.provisional q.1 q.2)) =
    ({ mode := mode, forks := forks0 ++ pcs, winner := winner0 }, []) := by
  induction pcs generalizing forks0 with
  | nil => simp [runFork]
  | cons q rest ih =>
    simp only [List.map_cons, runFork_cons, forkStep]
    rw [ih (forks0 ++ [(q.1, q.2)])]
    simp

/-- Scenario of claim C1: an outgoing INVITE in `ForkSelectAutomatic` mode
whose forks all establish early dialogs (`pcs`, as participant and related
conversation pairs) and then receive the first 2xx on fork `p`. -/
def automaticForkRun (pcs : List (ParticipantHandle × ConversationHandle))
    (p : ParticipantHandle) : ForkCallState × List SipEvent :=
  runFork (initialForkCall ParticipantForkSelectMode.ForkSelectAutomatic)
    (pcs.map (fun q => ForkEvent.provisional q.1 q.2) ++ [ForkEvent.firstAnswer p])

theorem automaticForkRun_eq (pcs : List (ParticipantHandle × ConversationHandle))
    (p : ParticipantHandle) :
    automaticForkRun pcs p =
      ({ mode := ParticipantForkSelectMode.ForkSelectAutomatic,
         forks := pcs.filter (fun q => q.1 = p), winner := some p },
       (pcs.filter (fun q => q.1 ≠ p)).map (fun q => SipEvent.bye q.1) ++
         (pcs.filter (fun q => q.1 ≠ p)).map (fun q => SipEvent.convDestroyed q.2)) := by
  unfold automaticForkRun initialForkCall
  rw [runFork_append, runFork_provisionals]
  simp [runFork_cons, runFork, forkStep]

theorem automaticForkRun_state (pcs : List (ParticipantHandle × ConversationHandle))
    (p : ParticipantHandle) :
    (automaticForkRun pcs p).1 =
      { mode := ParticipantForkSelectMode.ForkSelectAutomatic,
        forks := pcs.filter (fun q => q.1 = p), winner := some p } := by
  rw [automaticForkRun_eq]

theorem automaticForkRun_events (pcs : List (ParticipantHandle × ConversationHandle))
    (p : ParticipantHandle) :
    (automaticForkRun pcs p).2 =
      (pcs.filter (fun q => q.1 ≠ p)).map (fun q => SipEvent.bye q.1) ++
        (pcs.filter (fun q => q.1 ≠ p)).map (fun q => SipEvent.convDestroyed q.2) := by
  rw [automaticForkRun_eq]

theorem winners_map_eq (pcs : List (ParticipantHandle × ConversationHandle))
    (p : ParticipantHandle) (hnd : (pcs.map Prod.fst).Nodup) (hp : p ∈ pcs.map Prod.fst) :
    (pcs.filter (fun q => q.1 = p)).map Prod.fst = [p] := by
  induction pcs with
  | nil => cases hp
  | cons x rest ih =>
    rw [List.map_cons] at hnd hp
    have hx_not : x.1 ∉ rest.map Prod.fst := (List.nodup_cons.mp hnd).1
    have hrest : (rest.map Prod.fst).Nodup := (List.nodup_cons.mp hnd).2
    rcases List.mem_cons.mp hp with hpx | hpr
    · have hxp : x.1 = p := hpx.symm
      simp only [List.filter_cons]
      rw [if_pos (decide_eq_true hxp)]
      have hfe : rest.filter (fun q => q.1 = p) = [] := by
        rw [List.filter_eq_nil_iff]
        intro y hy
        simp only [decide_eq_true_eq]
        intro he
        exact hx_not (hxp ▸ he ▸ List.mem_map_of_mem Prod.fst hy)
      rw [hfe, List.map_cons, hxp]
      rfl
    · have hxp : x.1 ≠ p := fun e => hx_not (e ▸ hpr)
      simp only [List.filter_cons]
      rw [if_neg (by simp [hxp])]
      exact ih hrest hpr

theorem count_bye_in_bye_map_zero (l : List (ParticipantHandle × ConversationHandle))
    (q : ParticipantHandle) (h : q ∉ l.map Prod.fst) :
    (l.map (fun x => SipEvent.bye x.1)).count (SipEvent.bye q) = 0 := by
  rw [List.count_eq_zero]
  intro hmem
  rcases List.mem_map.mp hmem with ⟨x, hx, he⟩
  have hxq : x.1 = q := by
    injection he
  exact h (hxq ▸ List.mem_map_of_mem Prod.fst hx)

theorem count_bye_in_convDestroyed_map (l : List (ParticipantHandle × ConversationHandle))
    (q : ParticipantHandle) :
    (l.map (fun x => SipEvent.convDestroyed x.2)).count (SipEvent.bye q) = 0 := by
  rw [List.count_eq_zero]
  intro hmem
  rcases List.mem_map.mp hmem with ⟨x, _, he⟩
  exact SipEvent.noConfusion he

theorem count_cancel_in_bye_map (l : List (ParticipantHandle × ConversationHandle)) :
    (l.map (fun x => SipEvent.bye x.1)).count SipEvent.cancel = 0 := by
  rw [List.count_eq_zero]
  intro hmem
  rcases List.mem_map.mp hmem with ⟨x, _, he⟩
  exact SipEvent.noConfusion he

theorem count_cancel_in_convDestroyed_map (l : List (ParticipantHandle × ConversationHandle)) :
    (l.map (fun x => SipEvent.convDestroyed x.2)).count SipEvent.cancel = 0 := by
  rw [List.count_eq_zero]
  intro hmem
  rcases List.mem_map.mp hmem with ⟨x, _, he⟩
  exact SipEvent.noConfusion he

theorem count_bye_losers_one (pcs : List (ParticipantHandle × ConversationHandle))
    (p q : ParticipantHandle) (hnd : (pcs.map Prod.fst).Nodup)
    (hq : q ∈ pcs.map Prod.fst) (hqp : q ≠ p) :
    ((pcs.filter (fun x => x.1 ≠ p)).map (fun x => SipEvent.bye x.1)).count
      (SipEvent.bye q) = 1 := by
  induction pcs with
  | nil => cases hq
  | cons x rest ih =>
    rw [List.map_cons] at hnd hq
    have hx_not : x.1 ∉ rest.map Prod.fst := (List.nodup_cons.mp hnd).1
    have hrest : (rest.map Prod.fst).Nodup := (List.nodup_cons.mp hnd).2
    rcases List.mem_cons.mp hq with rfl | hqr
    · have hxp : x.1 ≠ p := hqp
      simp only [List.filter_cons]
      rw [if_pos (decide_eq_true hxp)]
      rw [List.map_cons, List.count_cons_self]
      rw [count_bye_in_bye_map_zero _ x.1 ?notin]
      case notin =>
        intro hmem
        rcases List.mem_map.mp hmem with ⟨y, hy, hyq⟩
        exact hx_not (hyq ▸ List.mem_map_of_mem Prod.fst (List.mem_of_mem_filter hy))
    · have hxq : x.1 ≠ q := fun e => hx_not (e ▸ hqr)
      by_cases hxp : x.1 = p
      · simp only [List.filter_cons]
        rw [if_neg (by simp [hxp])]
        exact ih hrest hqr
      · simp only [List.filter_cons]
        rw [if_pos (decide_eq_true hxp)]
        rw [List.map_cons]
        rw [List.count_cons_of_ne (fun e => hxq (SipEvent.bye.inj e).symm)]
        exact ih hrest hqr

/-- C1: in `ForkSelectAutomatic` mode, with N early fork dialogs and a
first 2xx on fork `p`, exactly one remote participant — the answering
fork — survives, a BYE is emitted exactly once on each of the N-1 other
forks that established an early dialog (and none on the winner), and no
CANCEL request is issued. -/
theorem forkSelectAutomatic_spec (pcs : List (ParticipantHandle × ConversationHandle))
    (p : ParticipantHandle) (hnd : (pcs.map Prod.fst).Nodup) (hp : p ∈ pcs.map Prod.fst) :
    ((automaticForkRun pcs p).1.forks.map Prod.fst = [p]) ∧
    (∀ q ∈ pcs.map Prod.fst, q ≠ p →
      (automaticForkRun pcs p).2.count (SipEvent.bye q) = 1) ∧
    ((automaticForkRun pcs p).2.count (SipEvent.bye p) = 0) ∧
    ((automaticForkRun pcs p).2.count SipEvent.cancel = 0) := by
  refine ⟨?_, ?_, ?_, ?_⟩
  · rw [automaticForkRun_state]
    exact winners_map_eq pcs p hnd hp
  · intro q hq hqp
    rw [automaticForkRun_events, List.count_append]
    rw [count_bye_losers_one pcs p q hnd hq hqp, count_bye_in_convDestroyed_map]
  · rw [automaticForkRun_events, List.count_append]
    rw [count_bye_in_bye_map_zero _ p ?pnotin, count_bye_in_convDestroyed_map]
    case pnotin =>
      intro hmem
      rcases List.mem_map.mp hmem with ⟨y, hy, hyp⟩
      have hyne := List.of_mem_filter hy
      rw [hyp] at hyne
      simp at hyne
  · rw [automaticForkRun_events, List.count_append]
    rw [count_cancel_in_bye_map, count_cancel_in_convDestroyed_map]

/-- Scenario of claim C2: an outgoing INVITE in `ForkSelectAutomaticEx`
mode whose forks establish early dialogs (`pcs`), after which the
application destroys the original participant before any final answer. -/
def automaticExDestroyRun (pcs : List (ParticipantHandle × ConversationHandle)) :
    ForkCallState × List SipEvent :=
  runFork (initialForkCall ParticipantForkSelectMode.ForkSelectAutomaticEx)
    (pcs.map (fun q => ForkEvent.provisional q.1 q.2) ++ [ForkEvent.destroyOriginal])

theorem automaticExDestroyRun_eq (pcs : List (ParticipantHandle × ConversationHandle)) :
    automaticExDestroyRun pcs =
      ({ mode := ParticipantForkSelectMode.ForkSelectAutomaticEx,
         forks := [], winner := none },
       SipEvent.cancel :: pcs.map (fun q => SipEvent.convDestroyed q.2)) := by
  unfold automaticExDestroyRun initialForkCall
  rw [runFork_append, runFork_provisionals]
  simp [runFork_cons, runFork, forkStep]

/-- C2: in `ForkSelectAutomaticEx` mode, when the application destroys the
original participant before any final answer, exactly one CANCEL request
is issued, every related conversation created for the forks is torn down,
and no fork survives. -/
theorem forkSelectAutomaticEx_cancel_spec (pcs : List (ParticipantHandle × ConversationHandle)) :
    ((automaticExDestroyRun pcs).2.count SipEvent.cancel = 1) ∧
    (∀ c ∈ pcs.map Prod.snd, SipEvent.convDestroyed c ∈ (automaticExDestroyRun pcs).2) ∧
    ((automaticExDestroyRun pcs).1.forks = []) := by
  have he : (automaticExDestroyRun pcs).2 =
      SipEvent.cancel :: pcs.map (fun q => SipEvent.convDestroyed q.2) := by
    rw [automaticExDestroyRun_eq]
  have hs : (automaticExDestroyRun pcs).1.forks = [] := by
    rw [automaticExDestroyRun_eq]
  refine ⟨?_, ?_, hs⟩
  · rw [he, List.count_cons_self, count_cancel_in_convDestroyed_map]
  · intro c hc
    rw [he]
    rcases List.mem_map.mp hc with ⟨x, hx, hxc⟩
    exact List.mem_cons_of_mem _
      (hxc ▸ List.mem_map_of_mem (fun q => SipEvent.convDestroyed q.2) hx)

/-- Concrete fork list used by the C1 and C2 witnesses: two early forks
with their related conversations. -/
def witnessForks : List (ParticipantHandle × ConversationHandle) := [(21, 101), (22, 102)]

/-- Witness for C1 at a concrete two-fork scenario answered on fork 22:
only fork 22 survives, one BYE goes to fork 21, none to fork 22, and no
CANCEL is issued. -/
theorem forkSelectAutomatic_spec_witness :
    ((automaticForkRun witnessForks 22).1.forks.map Prod.fst = [22]) ∧
    ((automaticForkRun witnessForks 22).2.count (SipEvent.bye 21) = 1) ∧
    ((automaticForkRun witnessForks 22).2.count (SipEvent.bye 22) = 0) ∧
    ((automaticForkRun witnessForks 22).2.count SipEvent.cancel = 0) := by
  have h := forkSelectAutomatic_spec witnessForks 22 (by decide) (by decide)
  exact ⟨h.1, h.2.1 21 (by decide) (by decide), h.2.2.1, h.2.2.2⟩

/-- Witness for C2 at a concrete two-fork scenario destroyed before any
answer: one CANCEL, both related conversations torn down, no surviving
fork. -/
theorem forkSelectAutomaticEx_cancel_spec_witness :
    ((automaticExDestroyRun witnessForks).2.count SipEvent.cancel = 1) ∧
    (SipEvent.convDestroyed 101 ∈ (automaticExDestroyRun witnessForks).2) ∧
    (SipEvent.convDestroyed 102 ∈ (automaticExDestroyRun witnessForks).2) ∧
    ((automaticExDestroyRun witnessForks).1.forks = []) := by
  have h := forkSelectAutomaticEx_cancel_spec witnessForks
  exact ⟨h.1, h.2.1 101 (by decide), h.2.1 102 (by decide), h.2.2⟩
